import Mathlib

/-!
Verification of the openpnpy PnP protocol layer (`openpnpy/server.py` and
`openpnpy/messages.py`) against its natural-language specification.

The XML data model mirrors `xml.etree.ElementTree`: an element has a tag,
an ordered attribute list, optional text and a list of children.  Attribute
values in `ElementTree` are arbitrary Python objects (the codecs store
strings, booleans and integers, and `PnpMessage` can store `None`); only
string values survive serialization, any other value makes
`ElementTree.tostring` raise.  Tails and namespace prefix rewriting are not
used by the modelled code paths and are not represented: tags are the plain
strings the source passes to the tree builder, and the modelled documents
(the validity predicate below) use plain XML names and unescaped
attribute/text characters.
-/

namespace Pnp

/-- A Python value stored in an `ElementTree` attribute dictionary:
the codecs store strings, booleans (`cli_exec`), integers (`cli_exec`),
and `PnpMessage.body`'s setter can store `None`. -/
inductive AttrVal where
  | str (s : String)
  | boolean (b : Bool)
  | intVal (n : Int)
  | null
  deriving DecidableEq, Repr

mutual
/-- `xml.etree.ElementTree.Element`: tag, ordered attributes, optional text,
children.  (Tails are never produced by the modelled code and are omitted.) -/
inductive Element where
  | mk (tag : String) (attrs : List (String × AttrVal)) (text : Option String)
       (children : ElementList)
  deriving DecidableEq, Repr

/-- The ordered list of children of an element. -/
inductive ElementList where
  | nil
  | cons (hd : Element) (tl : ElementList)
  deriving DecidableEq, Repr
end

def Element.tag : Element → String
  | .mk t _ _ _ => t

def Element.attrs : Element → List (String × AttrVal)
  | .mk _ a _ _ => a

def Element.text : Element → Option String
  | .mk _ _ tx _ => tx

def Element.children : Element → ElementList
  | .mk _ _ _ ch => ch

/-- `ElementList.head?`: the first child, if any (`root[0]` succeeds iff this
is `some`; on an empty list Python raises `IndexError`). -/
def ElementList.head? : ElementList → Option Element
  | .nil => Option.none
  | .cons h _ => some h

/-- Tags of a list of elements, in order. -/
def tagsL : ElementList → List String
  | .nil => []
  | .cons h t => h.tag :: tagsL t

/-- Python `dict` lookup used by `Element.get(key)`: the stored value, or
`None` (modelled as `AttrVal.null`) when the key is absent.  A stored `None`
and an absent key are indistinguishable through `get`, exactly as in Python. -/
def getAttr (attrs : List (String × AttrVal)) (k : String) : AttrVal :=
  match attrs.find? (fun p => p.1 == k) with
  | some p => p.2
  | Option.none => AttrVal.null

/-- Python `dict` update used by `Element.set(key, value)`: replacing an
existing key keeps its position, a new key is appended (insertion order). -/
def setAttr : List (String × AttrVal) → String → AttrVal → List (String × AttrVal)
  | [], k, v => [(k, v)]
  | (k', v') :: rest, k, v =>
      if k' == k then (k, v) :: rest else (k', v') :: setAttr rest k v

/-- `Element.get` on an element. -/
def getAttrE (e : Element) (k : String) : AttrVal := getAttr e.attrs k

/-- `Element.set` on an element (returns the updated element; Python mutates
the element in place, which the state-passing embedding renders by returning
the post-state). -/
def setAttrE (e : Element) (k : String) (v : AttrVal) : Element :=
  Element.mk e.tag (setAttr e.attrs k v) e.text e.children

/-! ## Serialization (`ElementTree.tostring`)

`tostring` writes `<tag k="v" ...>` then, when the element has text or
children, the text, the serialized children and `</tag>`; otherwise it
writes `<tag ... />`.  Python truthiness makes text `None` and text `""`
both count as "no text".  `_escape_attrib` raises `TypeError` on any
non-string attribute value, which the model renders as `Option.none`. -/

/-- The characters of the text field under Python truthiness
(`None` and `""` are both falsy, hence empty). -/
def textChars : Option String → List Char
  | Option.none => []
  | some t => t.toList

/-- Serialize an attribute list; fails (`TypeError` in
`ElementTree._escape_attrib`) on any non-string value. -/
def serAttrs : List (String × AttrVal) → Option (List Char)
  | [] => some []
  | (k, v) :: rest =>
    match v with
    | AttrVal.str s => do
        let r ← serAttrs rest
        pure (' ' :: (k.toList ++ '=' :: '"' :: (s.toList ++ '"' :: r)))
    | AttrVal.boolean _ => Option.none
    | AttrVal.intVal _ => Option.none
    | AttrVal.null => Option.none

mutual
/-- Serialize one element, mirroring `ElementTree.tostring`
(default `short_empty_elements=True`, so childless textless elements are
written `<tag />`). -/
def serE : Element → Option (List Char)
  | .mk tag attrs text children => do
      let av ← serAttrs attrs
      if (textChars text).isEmpty && isNilL children then
        pure ('<' :: (tag.toList ++ av ++ (' ' :: '/' :: '>' :: [])))
      else do
        let inner ← serL children
        pure ('<' :: (tag.toList ++ av ++ '>' ::
          (textChars text ++ inner ++ '<' :: '/' :: (tag.toList ++ ['>']))))

/-- Serialize a list of elements in order. -/
def serL : ElementList → Option (List Char)
  | .nil => some []
  | .cons h t => do
      let ch ← serE h
      let ct ← serL t
      pure (ch ++ ct)

/-- Emptiness test for children (`len(elem) == 0`). -/
def isNilL : ElementList → Bool
  | .nil => true
  | .cons _ _ => false
end

/-- `PnpMessage.to_string`: `ElementTree.tostring(self.root)`. -/
def to_string (e : Element) : Option String :=
  (serE e).map List.asString

/-! ## Parsing (`ElementTree.fromstring`)

A recursive-descent parser for the XML fragment the modelled system emits
and receives: elements with attributes, text content and child elements
(entity escapes, processing instructions, comments and tails between
children are outside the model).  Parsing failure models the
`xml.etree.ElementTree.ParseError` raised by `fromstring`. -/

/-- Characters allowed in a tag or attribute name. -/
def isNameChar (c : Char) : Bool :=
  c.isAlphanum || c == '-' || c == '_' || c == '.' || c == ':'

/-- Parse a nonempty run of name characters. -/
def parseName (cs : List Char) : Option (String × List Char) :=
  let n := cs.takeWhile isNameChar
  if n.isEmpty then Option.none
  else some (n.asString, cs.dropWhile isNameChar)

/-- Parse the attribute part of a start tag, up to and including the
closing `>` or `/>`.  Returns the attributes, whether the tag was
self-closing, and the rest of the input.  Fuel bounds the number of
attributes; each iteration consumes at least one character, so
`cs.length + 1` is always sufficient fuel. -/
def parseAttrs : Nat → List Char → Option (List (String × AttrVal) × Bool × List Char)
  | 0, _ => Option.none
  | fuel + 1, cs =>
    if cs.take 1 = ['>'] then some ([], false, cs.drop 1)
    else if cs.take 2 = ['/', '>'] then some ([], true, cs.drop 2)
    else if cs.take 3 = [' ', '/', '>'] then some ([], true, cs.drop 3)
    else if cs.take 1 = [' '] then do
      let (k, cs1) ← parseName (cs.drop 1)
      if cs1.take 2 = ['=', '"'] then
        let cs2 := cs1.drop 2
        let v := cs2.takeWhile (fun c => c != '"')
        let cs3 := cs2.dropWhile (fun c => c != '"')
        if cs3.take 1 = ['"'] then do
          let (as, sc, cs4) ← parseAttrs fuel (cs3.drop 1)
          pure ((k, AttrVal.str v.asString) :: as, sc, cs4)
        else Option.none
      else Option.none
    else Option.none

mutual
/-- Parse one element.  Fuel bounds the nesting of elements. -/
def parseE : Nat → List Char → Option (Element × List Char)
  | 0, _ => Option.none
  | fuel + 1, cs =>
    if cs.take 1 = ['<'] then do
      let (tag, cs2) ← parseName (cs.drop 1)
      let (attrs, selfClose, cs3) ← parseAttrs (cs2.length + 1) cs2
      if selfClose then
        pure (Element.mk tag attrs Option.none ElementList.nil, cs3)
      else do
        let t := cs3.takeWhile (fun c => c != '<')
        let cs4 := cs3.dropWhile (fun c => c != '<')
        let text := if t.isEmpty then Option.none else some t.asString
        let (ch, cs5) ← parseChildren fuel cs4
        if cs5.take 2 = ['<', '/'] then do
          let (ctag, cs7) ← parseName (cs5.drop 2)
          if ctag = tag ∧ cs7.take 1 = ['>'] then
            pure (Element.mk tag attrs text ch, cs7.drop 1)
          else Option.none
        else Option.none
    else Option.none

/-- Parse the children of an element, stopping at the parent's `</`. -/
def parseChildren : Nat → List Char → Option (ElementList × List Char)
  | 0, _ => Option.none
  | fuel + 1, cs =>
    if cs.take 2 = ['<', '/'] then some (ElementList.nil, cs)
    else if cs.take 1 = ['<'] then do
      let (e, cs1) ← parseE fuel cs
      let (es, cs2) ← parseChildren fuel cs1
      pure (ElementList.cons e es, cs2)
    else Option.none
end

/-- `PnpMessage.from_string`: `ElementTree.fromstring(xmlstring)`; the whole
input must be one document (trailing whitespace tolerated), otherwise the
parse fails. -/
def from_string (s : String) : Option Element :=
  match parseE (2 * s.length + 2) s.toList with
  | some (e, rest) =>
      if rest.all (fun c => c == ' ' || c == '\n' || c == '\r' || c == '\t')
      then some e else Option.none
  | Option.none => Option.none

/-! ## Validity

The well-formed documents over which the round-trip claim is stated:
plain XML names, string attribute values without `"`, `<`, `&`, text
without `<`, `&` and not the empty string (an empty text field does not
survive `tostring`, in the Python library just as in this model). -/

/-- A valid tag or attribute name. -/
def validName (s : String) : Bool :=
  !s.toList.isEmpty && s.toList.all isNameChar

/-- A valid attribute value: a string without `"`, `<`, `&`. -/
def validAttrV : AttrVal → Bool
  | AttrVal.str v => v.toList.all (fun c => c != '"' && c != '<' && c != '&')
  | AttrVal.boolean _ => false
  | AttrVal.intVal _ => false
  | AttrVal.null => false

/-- A valid attribute list. -/
def validAttrs (attrs : List (String × AttrVal)) : Bool :=
  attrs.all (fun p => validName p.1 && validAttrV p.2)

/-- Valid text: absent, or nonempty without `<`, `&`. -/
def validText : Option String → Bool
  | Option.none => true
  | some t => !t.toList.isEmpty && t.toList.all (fun c => c != '<' && c != '&')

mutual
/-- A valid element. -/
def validE : Element → Bool
  | .mk tag attrs text ch =>
      validName tag && validAttrs attrs && validText text && validL ch

/-- A valid list of elements. -/
def validL : ElementList → Bool
  | .nil => true
  | .cons h t => validE h && validL t
end

/-! ## `PnpMessage` (`openpnpy/server.py`)

A `PnpMessage` wraps its root element; the model works on the root element
directly.  Python exceptions are modelled by the `PyError` type. -/

/-- The Python exceptions reachable in the modelled code paths. -/
inductive PyError where
  | parseError
  | indexError
  | notImplementedError
  | typeError
  | attributeError
  deriving DecidableEq, Repr

/-- `PnpMessage.body` getter: `self.root[0]`; raises `IndexError` when the
root has no children, otherwise returns the first child (no check that the
child is unique). -/
def bodyGet (root : Element) : Option Element :=
  root.children.head?

/-- `PnpMessage.udi` getter: `self.root.get('udi')`. -/
def udiGet (root : Element) : AttrVal := getAttrE root "udi"

/-- `PnpMessage.username` getter: the source evaluates
`self.root.get('username')` but has no `return` statement, so the Python
property returns `None`. -/
def usernameGet (root : Element) : Option String :=
  let _ := getAttrE root "username"
  Option.none

/-- `PnpMessage.username` setter: `self.root.set('username', value)`. -/
def usernameSet (root : Element) (value : String) : Element :=
  setAttrE root "username" (AttrVal.str value)

/-- `PnpMessage.password` getter: the source evaluates
`self.root.get('password')` but has no `return` statement, so the Python
property returns `None`. -/
def passwordGet (root : Element) : Option String :=
  let _ := getAttrE root "password"
  Option.none

/-- `PnpMessage.password` setter: `self.root.set('password', value)`. -/
def passwordSet (root : Element) (value : String) : Element :=
  setAttrE root "password" (AttrVal.str value)

/-- `PnpMessage.correlator`: `self.body.get('correlator')`; raises
`IndexError` on a childless root. -/
def correlator (root : Element) : Option AttrVal :=
  (bodyGet root).map (fun b => getAttrE b "correlator")

/-- `PnpMessage.make_reply(element)`:
`response = deepcopy(self); response.body = element; return response`.
The body setter runs `element.set('correlator', self.correlator)` (mutating
the caller's element in place) and then `self.root[0] = element` (aliasing,
not copying, the element into the reply).  The state-passing embedding
returns `(reply root, post-state of self's root, post-state of element)`;
the deep copy leaves the receiver's root unchanged.  Raises `IndexError`
(`Option.none`) when the receiver's root has no children. -/
def make_reply (root elem : Element) : Option (Element × Element × Element) :=
  match root.children with
  | ElementList.nil => Option.none
  | ElementList.cons b rest =>
      let stamped := setAttrE elem "correlator" (getAttrE b "correlator")
      some (Element.mk root.tag root.attrs root.text (ElementList.cons stamped rest),
            root, stamped)

/-! ## Service codecs (`openpnpy/messages.py`)

Each builder constructs the element tree produced by the source's
`ContextualTreeBuilder` calls. -/

/-- A leaf element holding only text (`start(tag); data(s); end(tag)`). -/
def textLeaf (tag : String) (s : String) : Element :=
  Element.mk tag [] (some s) ElementList.nil

/-- `messages.backoff(hours, minutes, seconds, default_minutes, terminate,
reason)`: body `\x7burn:cisco:pnp:backoff\x7drequest` containing a `backoff`
element with a `reason` child and then, following the source's
`if terminate / elif default_minutes / elif hours or minutes or seconds`
chain, at most one mode child.  No argument validation is performed. -/
def backoff (hours minutes seconds default_minutes : Nat) (terminate : Bool)
    (reason : String) : Element :=
  let modes : ElementList :=
    if terminate then
      ElementList.cons (Element.mk "terminate" [] Option.none ElementList.nil)
        ElementList.nil
    else if default_minutes != 0 then
      ElementList.cons (textLeaf "defaultMinutes" (toString default_minutes))
        ElementList.nil
    else if hours != 0 || minutes != 0 || seconds != 0 then
      ElementList.cons
        (Element.mk "callBackAfter" [] Option.none
          ((if hours != 0 then
              ElementList.cons (textLeaf "hours" (toString hours)) else id)
           ((if minutes != 0 then
              ElementList.cons (textLeaf "minutes" (toString minutes)) else id)
            ((if seconds != 0 then
              ElementList.cons (textLeaf "seconds" (toString seconds)) else id)
             ElementList.nil))))
        ElementList.nil
    else ElementList.nil
  Element.mk "\x7burn:cisco:pnp:backoff\x7drequest" [] Option.none
    (ElementList.cons
      (Element.mk "backoff" [] Option.none
        (ElementList.cons (textLeaf "reason" reason) modes))
      ElementList.nil)

/-- Build `cmd` leaves for a list of command strings. -/
def cmdLeaves : List String → ElementList
  | [] => ElementList.nil
  | c :: rest => ElementList.cons (textLeaf "cmd" c) (cmdLeaves rest)

/-- `messages.cli_config(commands, details, check, on_fail, write)`:
body `\x7burn:cisco:pnp:cli-config\x7drequest` containing `configTest` (when
`check`) or `configApply` (otherwise), with the `cmd` leaves nested under
`config-data`/`cli-config-data`, and a trailing `configPersist` marker only
when `write and not check`.  No argument validation is performed. -/
def cli_config (commands : List String) (details : String) (check : Bool)
    (on_fail : String) (write : Bool) : Element :=
  let configType : String × List (String × AttrVal) :=
    if check then ("configTest", [("details", AttrVal.str details)])
    else ("configApply",
      [("details", AttrVal.str details), ("action-on-fail", AttrVal.str on_fail)])
  Element.mk "\x7burn:cisco:pnp:cli-config\x7drequest" [] Option.none
    (ElementList.cons
      (Element.mk configType.1 configType.2 Option.none
        (ElementList.cons
          (Element.mk "config-data" [] Option.none
            (ElementList.cons
              (Element.mk "cli-config-data" [] Option.none (cmdLeaves commands))
              ElementList.nil))
          ElementList.nil))
      (if write && !check then
        ElementList.cons (Element.mk "configPersist" [] Option.none ElementList.nil)
          ElementList.nil
       else ElementList.nil))

/-- A `cli_exec` command entry: a plain command string, or an
`(expect, reply)` dialog tuple (the source's `Dialog` namedtuple then
supplies the defaults `match='exact'`, `case_sensitive=True`, `repeat=1`). -/
inductive ExecCmd where
  | cmd (s : String)
  | dialog (expect reply : String)
  deriving DecidableEq, Repr

/-- The `execTest` branch of `cli_exec`: only plain string commands emit a
`cmd` leaf, dialog tuples are silently skipped (`if isinstance(cmd, str)`
with no `else`). -/
def execTestCmds : List ExecCmd → ElementList
  | [] => ElementList.nil
  | ExecCmd.cmd s :: rest => ElementList.cons (textLeaf "cmd" s) (execTestCmds rest)
  | ExecCmd.dialog _ _ :: rest => execTestCmds rest

/-- The `execCLI` branch of `cli_exec`: a string emits a `cmd` leaf; a
dialog tuple emits `dialog repeat="1"` containing `expect` (attributes
`match='exact'` and `caseSensitive=True` — the raw Python boolean, not a
string) and `reply`. -/
def execCliCmds : List ExecCmd → ElementList
  | [] => ElementList.nil
  | ExecCmd.cmd s :: rest => ElementList.cons (textLeaf "cmd" s) (execCliCmds rest)
  | ExecCmd.dialog e r :: rest =>
      ElementList.cons
        (Element.mk "dialog" [("repeat", AttrVal.str "1")] Option.none
          (ElementList.cons
            (Element.mk "expect"
              [("match", AttrVal.str "exact"), ("caseSensitive", AttrVal.boolean true)]
              (some e) ElementList.nil)
            (ElementList.cons (textLeaf "reply" r) ElementList.nil)))
        (execCliCmds rest)

/-- `messages.cli_exec(commands, details, max_wait, max_size, check)`:
body `\x7burn:cisco:pnp:cli-exec\x7drequest` containing `execTest` (when
`check`) or `execCLI` with attributes `maxWait=f'PT\x7bmax_wait\x7dS'` (a
string) and `maxResponseSize=max_size` (the raw Python integer). -/
def cli_exec (commands : List ExecCmd) (details : String) (max_wait max_size : Int)
    (check : Bool) : Element :=
  if check then
    Element.mk "\x7burn:cisco:pnp:cli-exec\x7drequest" [] Option.none
      (ElementList.cons
        (Element.mk "execTest" [("details", AttrVal.str details)] Option.none
          (ElementList.cons
            (Element.mk "exec-data" [] Option.none
              (ElementList.cons
                (Element.mk "cli-exec-data" [] Option.none (execTestCmds commands))
                ElementList.nil))
            ElementList.nil))
        ElementList.nil)
  else
    Element.mk "\x7burn:cisco:pnp:cli-exec\x7drequest" [] Option.none
      (ElementList.cons
        (Element.mk "execCLI"
          [("maxWait", AttrVal.str ("PT" ++ toString max_wait ++ "S")),
           ("maxResponseSize", AttrVal.intVal max_size)]
          Option.none (execCliCmds commands))
        ElementList.nil)

/-! ## `udi_to_dict` (`openpnpy/server.py`)

`re.match(r'PID:(?P<PID>.+),VID:(?P<VID>.+),SN:(?P<SN>.+)', udi)` followed
by `m.groupdict()`.  When the pattern does not match, `m` is `None` and
`m.groupdict()` raises `AttributeError`.  `.+` is greedy and `.` does not
match a newline; `re.match` anchors at the start only.  The model renders
the backtracking engine: each group tries its longest newline-free
candidate first. -/

/-- Try group lengths `i, i-1, ..., 1`: the group is `s.take j`, which must
be followed literally by `sep`, after which the continuation `k` must
match.  This is the backtracking of a greedy `(.+)` followed by `sep` and
the rest of the pattern. -/
def tryLens (sep : List Char) (k : List Char → Option α) (s : List Char) :
    Nat → Option (List Char × α)
  | 0 => Option.none
  | j + 1 =>
    match (if sep.isPrefixOf (s.drop (j + 1)) then
             k ((s.drop (j + 1)).drop sep.length) else Option.none) with
    | some a => some (s.take (j + 1), a)
    | Option.none => tryLens sep k s j

/-- Greedy `(.+)` followed by the literal `sep` and then the pattern `k`:
candidates are the nonempty prefixes of the maximal newline-free run,
longest first. -/
def greedyGroup (sep : List Char) (k : List Char → Option α) (s : List Char) :
    Option (List Char × α) :=
  tryLens sep k s (s.takeWhile (fun c => c != '\n')).length

/-- The final `(.+)` of the pattern: the maximal newline-free run, which
must be nonempty; any remaining input is ignored (`re.match` does not
anchor the end). -/
def finalGroup (s : List Char) : Option (List Char) :=
  let g := s.takeWhile (fun c => c != '\n')
  if g.isEmpty then Option.none else some g

/-- `server.udi_to_dict(udi)`: the PID/VID/SN triple extracted by
`PID:(?P<PID>.+),VID:(?P<VID>.+),SN:(?P<SN>.+)`, or `Option.none`
(`AttributeError` on `None.groupdict()`) when the pattern does not match. -/
def udi_to_dict (udi : String) : Option (String × String × String) :=
  let cs := udi.toList
  if ("PID:".toList).isPrefixOf cs then
    match greedyGroup (",VID:".toList)
        (greedyGroup (",SN:".toList) finalGroup) (cs.drop 4) with
    | some (p, (v, n)) => some (p.asString, v.asString, n.asString)
    | Option.none => Option.none
  else Option.none

/-! ## Server endpoints (`PnpServer.reply` and the default handlers) -/

/-- `PnpServer.handle_work_request`: the default implementation raises
`NotImplementedError`. -/
def handle_work_request (_work_request : Element) : Except PyError Element :=
  Except.error PyError.notImplementedError

/-- `PnpServer.handle_work_response`: the default implementation raises
`NotImplementedError`. -/
def handle_work_response (_work_response : Element) : Except PyError Element :=
  Except.error PyError.notImplementedError

/-- The endpoint function built by `PnpServer.reply(handler)`:
parse the raw request, invoke the handler, wrap its result via
`make_reply`, serialize, and return it with HTTP status 200.  Any Python
exception on the way propagates out (no 200 response is produced). -/
def replyEndpoint (handler : Element → Except PyError Element) (raw : String) :
    Except PyError (String × Nat) := do
  let agentRequest ←
    match from_string raw with
    | some e => Except.ok e
    | Option.none => Except.error PyError.parseError
  let body ← handler agentRequest
  let serverResponse ←
    match make_reply agentRequest body with
    | some (resp, _, _) => Except.ok resp
    | Option.none => Except.error PyError.indexError
  let out ←
    match to_string serverResponse with
    | some s => Except.ok s
    | Option.none => Except.error PyError.typeError
  pure (out, 200)

/-- The `/pnp/WORK-REQUEST` endpoint with the default (never overridden)
handler. -/
def workRequestEndpoint (raw : String) : Except PyError (String × Nat) :=
  replyEndpoint handle_work_request raw

/-- The `/pnp/WORK-RESPONSE` endpoint with the default (never overridden)
handler. -/
def workResponseEndpoint (raw : String) : Except PyError (String × Nat) :=
  replyEndpoint handle_work_response raw

/-- The envelope built from session attributes and a single body element:
root tag `pnp` with `version="1.0"`, `udi` and the optional `username` /
`password` attributes, and the body as only child (wire format of §6 of the
spec, without namespace prefixing). -/
def mkEnvelope (udi : String) (username password : Option String) (body : Element) :
    Element :=
  Element.mk "pnp"
    ([("version", AttrVal.str "1.0"), ("udi", AttrVal.str udi)] ++
     (match username with
      | some u => [("username", AttrVal.str u)]
      | Option.none => []) ++
     (match password with
      | some p => [("password", AttrVal.str p)]
      | Option.none => []))
    Option.none (ElementList.cons body ElementList.nil)

/-! ## Statement helpers (projections used to phrase the claims) -/

/-- The first child of the list with the given tag, if any. -/
def findChild : ElementList → String → Option Element
  | ElementList.nil, _ => Option.none
  | ElementList.cons h t, tag => if h.tag = tag then some h else findChild t tag

/-- Tags of the children of the body's first child (for `backoff`: the
children of the `backoff` element inside the request body). -/
def bodyChildTags (e : Element) : List String :=
  match bodyGet e with
  | some c => tagsL c.children
  | Option.none => []

/-- Tags of the children of the `callBackAfter` element inside a backoff
body, or `[]` when there is none. -/
def callBackAfterTags (e : Element) : List String :=
  match bodyGet e with
  | some bk =>
    match findChild bk.children "callBackAfter" with
    | some cb => tagsL cb.children
    | Option.none => []
  | Option.none => []

mutual
/-- Fuel needed by `parseE` on a serialized element. -/
def needE : Element → Nat
  | .mk _ _ _ ch => needL ch + 1

/-- Fuel needed by `parseChildren` on a serialized element list. -/
def needL : ElementList → Nat
  | .nil => 1
  | .cons h t => max (needE h) (needL t) + 1
end

/-! ## Basic lemmas about attribute dictionaries -/

theorem getAttr_setAttr (attrs : List (String × AttrVal)) (k : String) (v : AttrVal) :
    getAttr (setAttr attrs k v) k = v := by
  induction attrs with
  | nil => simp [setAttr, getAttr, List.find?]
  | cons hd tl ih =>
    obtain ⟨k', v'⟩ := hd
    by_cases h : k' = k
    · subst h
      simp [setAttr, getAttr, List.find?]
    · have hbeq : (k' == k) = false := by simp [h]
      simp only [setAttr, hbeq, Bool.false_eq_true, if_false]
      simpa [getAttr, List.find?, hbeq] using ih

theorem setAttr_mem (attrs : List (String × AttrVal)) (k : String) (v : AttrVal) :
    (k, v) ∈ setAttr attrs k v := by
  induction attrs with
  | nil => simp [setAttr]
  | cons hd tl ih =>
    obtain ⟨k', v'⟩ := hd
    by_cases h : k' = k
    · subst h; simp [setAttr]
    · simp only [setAttr, beq_iff_eq, if_neg h]
      exact List.mem_cons_of_mem _ ih

theorem getAttr_of_find?_none (attrs : List (String × AttrVal)) (k : String)
    (h : attrs.find? (fun p => p.1 == k) = Option.none) :
    getAttr attrs k = AttrVal.null := by
  simp [getAttr, h]

/-- Any attribute list containing a stored `None` fails to serialize
(`_escape_attrib` raises `TypeError`). -/
theorem serAttrs_of_null_mem (attrs : List (String × AttrVal)) (k : String)
    (h : (k, AttrVal.null) ∈ attrs) : serAttrs attrs = Option.none := by
  induction attrs with
  | nil => simp at h
  | cons hd tl ih =>
    obtain ⟨k', v'⟩ := hd
    rcases List.mem_cons.mp h with heq | hmem
    · obtain ⟨rfl, rfl⟩ := Prod.mk.injEq .. ▸ And.intro (congrArg Prod.fst heq) (congrArg Prod.snd heq)
      simp [serAttrs]
    · cases v' with
      | str s => simp [serAttrs, ih hmem]
      | boolean b => simp [serAttrs]
      | intVal n => simp [serAttrs]
      | null => simp [serAttrs]

/-- An element whose first child carries a stored-`None` attribute cannot be
serialized. -/
theorem serE_none_of_child_null (t : String) (a : List (String × AttrVal))
    (tx : Option String) (c : Element) (r : ElementList) (k : String)
    (h : (k, AttrVal.null) ∈ c.attrs) :
    serE (Element.mk t a tx (ElementList.cons c r)) = Option.none := by
  obtain ⟨ct, ca, ctx, cch⟩ := c
  simp only [Element.attrs] at h
  have hc : serE (Element.mk ct ca ctx cch) = Option.none := by
    simp [serE, serAttrs_of_null_mem ca k h]
  have hl : serL (ElementList.cons (Element.mk ct ca ctx cch) r) = Option.none := by
    rw [serL, hc]; rfl
  cases ha : serAttrs a with
  | none => simp [serE, ha]
  | some av => rw [serE, ha]; simp [isNilL, hl]

/-! ## Claim theorems -/

/-- Claim C1: for every parsed envelope `E` (with a body, since the source
raises `IndexError` otherwise) and every body element `B`, `make_reply E B`
returns a new envelope whose `udi`, `username` and `password` attributes
equal those of `E` and whose body is `B` carrying a `correlator` attribute
equal to `E`'s correlator, and the operation leaves `E` itself — its root
element, its attributes and its original body — unchanged. -/
theorem claim_C1_make_reply (root elem b : Element) (rest : ElementList)
    (h : root.children = ElementList.cons b rest) :
    (make_reply root elem).isSome = true ∧
    ∀ reply rootAfter elemAfter,
      make_reply root elem = some (reply, rootAfter, elemAfter) →
      reply.attrs = root.attrs ∧
      getAttrE reply "udi" = getAttrE root "udi" ∧
      getAttrE reply "username" = getAttrE root "username" ∧
      getAttrE reply "password" = getAttrE root "password" ∧
      bodyGet reply = some elemAfter ∧
      getAttrE elemAfter "correlator" = getAttrE b "correlator" ∧
      elemAfter = setAttrE elem "correlator" (getAttrE b "correlator") ∧
      rootAfter = root ∧ rootAfter.children = ElementList.cons b rest := by
  obtain ⟨t, a, tx, ch⟩ := root
  simp only [Element.children] at h
  subst h
  constructor
  · rfl
  · intro reply rootAfter elemAfter heq
    simp only [make_reply, Element.children, Option.some.injEq, Prod.mk.injEq] at heq
    obtain ⟨h1, h2, h3⟩ := heq
    subst h1; subst h2; subst h3
    refine ⟨rfl, rfl, rfl, rfl, rfl, ?_, rfl, rfl, rfl⟩
    simp [getAttrE, setAttrE, Element.attrs, getAttr_setAttr]

/-- Witness for C1 at a concrete envelope and body. -/
theorem claim_C1_make_reply_witness :
    (make_reply
      (Element.mk "pnp" [("udi", AttrVal.str "u1"), ("username", AttrVal.str "n1"),
        ("password", AttrVal.str "p1")] Option.none
        (ElementList.cons
          (Element.mk "req" [("correlator", AttrVal.str "c9")] Option.none ElementList.nil)
          ElementList.nil))
      (Element.mk "resp" [] Option.none ElementList.nil)).isSome = true ∧
    getAttrE
      (Element.mk "resp" [("correlator", AttrVal.str "c9")] Option.none ElementList.nil)
      "correlator" = AttrVal.str "c9" := by
  refine ⟨(claim_C1_make_reply
    (Element.mk "pnp" [("udi", AttrVal.str "u1"), ("username", AttrVal.str "n1"),
      ("password", AttrVal.str "p1")] Option.none
      (ElementList.cons
        (Element.mk "req" [("correlator", AttrVal.str "c9")] Option.none ElementList.nil)
        ElementList.nil))
    (Element.mk "resp" [] Option.none ElementList.nil)
    (Element.mk "req" [("correlator", AttrVal.str "c9")] Option.none ElementList.nil)
    ElementList.nil rfl).1, ?_⟩
  have h := ((claim_C1_make_reply
    (Element.mk "pnp" [("udi", AttrVal.str "u1"), ("username", AttrVal.str "n1"),
      ("password", AttrVal.str "p1")] Option.none
      (ElementList.cons
        (Element.mk "req" [("correlator", AttrVal.str "c9")] Option.none ElementList.nil)
        ElementList.nil))
    (Element.mk "resp" [] Option.none ElementList.nil)
    (Element.mk "req" [("correlator", AttrVal.str "c9")] Option.none ElementList.nil)
    ElementList.nil rfl).2 _ _ _ rfl).2.2.2.2.2.1
  simpa using h

/-- Claim C10: `make_reply` mutates the body element passed to it — the
reply's body is the very element supplied by the caller (aliased, not
copied, rendered in the state-passing embedding by the reply's body being
exactly the caller element's post-state), stamped in place with a
`correlator` attribute; when the source envelope's body has no correlator,
the attribute is set to the stored `None`, and serialization of the reply
then fails. -/
theorem claim_C10_make_reply_aliasing (root elem b : Element) (rest : ElementList)
    (h : root.children = ElementList.cons b rest) :
    (make_reply root elem).isSome = true ∧
    ∀ reply rootAfter elemAfter,
      make_reply root elem = some (reply, rootAfter, elemAfter) →
      bodyGet reply = some elemAfter ∧
      elemAfter = setAttrE elem "correlator" (getAttrE b "correlator") ∧
      (List.find? (fun p => p.1 == "correlator") b.attrs = Option.none →
        ("correlator", AttrVal.null) ∈ elemAfter.attrs ∧
        serE reply = Option.none ∧ to_string reply = Option.none) := by
  obtain ⟨t, a, tx, ch⟩ := root
  simp only [Element.children] at h
  subst h
  refine ⟨rfl, ?_⟩
  intro reply rootAfter elemAfter heq
  simp only [make_reply, Element.children, Option.some.injEq, Prod.mk.injEq] at heq
  obtain ⟨h1, h2, h3⟩ := heq
  subst h1; subst h2; subst h3
  refine ⟨rfl, rfl, ?_⟩
  intro hfind
  have hnull : getAttrE b "correlator" = AttrVal.null := by
    simpa [getAttrE] using getAttr_of_find?_none b.attrs "correlator" hfind
  rw [hnull]
  have hmem : ("correlator", AttrVal.null) ∈
      (setAttrE elem "correlator" AttrVal.null).attrs := by
    simpa [setAttrE, Element.attrs] using
      setAttr_mem elem.attrs "correlator" AttrVal.null
  have hser := serE_none_of_child_null t a tx
    (setAttrE elem "correlator" AttrVal.null) rest "correlator" hmem
  refine ⟨hmem, ?_, ?_⟩
  · show serE (Element.mk t a tx
      (ElementList.cons (setAttrE elem "correlator" AttrVal.null) rest)) = Option.none
    exact hser
  · show to_string (Element.mk t a tx
      (ElementList.cons (setAttrE elem "correlator" AttrVal.null) rest)) = Option.none
    simp [to_string, hser]

/-- Witness for C10 at a concrete envelope whose body has no correlator. -/
theorem claim_C10_make_reply_aliasing_witness :
    (make_reply
      (Element.mk "pnp" [("udi", AttrVal.str "u1")] Option.none
        (ElementList.cons (Element.mk "req" [] Option.none ElementList.nil)
          ElementList.nil))
      (Element.mk "resp" [] Option.none ElementList.nil)).isSome = true ∧
    to_string
      (Element.mk "pnp" [("udi", AttrVal.str "u1")] Option.none
        (ElementList.cons
          (Element.mk "resp" [("correlator", AttrVal.null)] Option.none ElementList.nil)
          ElementList.nil)) = Option.none := by
  have h := claim_C10_make_reply_aliasing
    (Element.mk "pnp" [("udi", AttrVal.str "u1")] Option.none
      (ElementList.cons (Element.mk "req" [] Option.none ElementList.nil)
        ElementList.nil))
    (Element.mk "resp" [] Option.none ElementList.nil)
    (Element.mk "req" [] Option.none ElementList.nil) ElementList.nil rfl
  refine ⟨h.1, ?_⟩
  have h2 := (h.2 _ _ _ rfl).2.2 (by rfl)
  simpa [setAttrE, setAttr, getAttrE, getAttr, Element.attrs] using h2.2.2

/-- Claim C4: the mode emitted in a `backoff` body follows the precedence
terminate > defaultMinutes > timer; a `callBackAfter` block appears iff at
least one of hours/minutes/seconds is non-zero and contains exactly the
non-zero units; `backoff()` with no arguments yields only the `reason`
child; `backoff(hours=1, minutes=23, seconds=11)` yields a `callBackAfter`
block with all three units and no `terminate`/`defaultMinutes` siblings. -/
theorem claim_C4_backoff_precedence (h m s dm : Nat) (t : Bool) (r : String) :
    bodyChildTags (backoff h m s dm t r) =
      "reason" ::
        (if t then ["terminate"]
         else if dm ≠ 0 then ["defaultMinutes"]
         else if h ≠ 0 ∨ m ≠ 0 ∨ s ≠ 0 then ["callBackAfter"] else []) ∧
    callBackAfterTags (backoff h m s dm t r) =
      (if t = false ∧ dm = 0 then
        (if h ≠ 0 then ["hours"] else []) ++ (if m ≠ 0 then ["minutes"] else []) ++
          (if s ≠ 0 then ["seconds"] else [])
       else []) ∧
    backoff 0 0 0 0 false "No Reason" =
      Element.mk "\x7burn:cisco:pnp:backoff\x7drequest" [] Option.none
        (ElementList.cons
          (Element.mk "backoff" [] Option.none
            (ElementList.cons (Element.mk "reason" [] (some "No Reason") ElementList.nil)
              ElementList.nil))
          ElementList.nil) ∧
    backoff 1 23 11 0 false "No Reason" =
      Element.mk "\x7burn:cisco:pnp:backoff\x7drequest" [] Option.none
        (ElementList.cons
          (Element.mk "backoff" [] Option.none
            (ElementList.cons (Element.mk "reason" [] (some "No Reason") ElementList.nil)
              (ElementList.cons
                (Element.mk "callBackAfter" [] Option.none
                  (ElementList.cons (Element.mk "hours" [] (some "1") ElementList.nil)
                    (ElementList.cons (Element.mk "minutes" [] (some "23") ElementList.nil)
                      (ElementList.cons (Element.mk "seconds" [] (some "11") ElementList.nil)
                        ElementList.nil))))
                ElementList.nil)))
          ElementList.nil) := by
  refine ⟨?_, ?_, by rfl, by rfl⟩
  · cases t with
    | true =>
      simp [backoff, bodyChildTags, bodyGet, Element.children, ElementList.head?,
        tagsL, textLeaf, Element.tag]
    | false =>
      by_cases hdm : dm = 0
      · by_cases hh : h = 0 <;> by_cases hm : m = 0 <;> by_cases hs : s = 0 <;>
          simp [backoff, bodyChildTags, bodyGet, Element.children, ElementList.head?,
            tagsL, textLeaf, Element.tag, hdm, hh, hm, hs]
      · simp [backoff, bodyChildTags, bodyGet, Element.children, ElementList.head?,
          tagsL, textLeaf, Element.tag, hdm]
  · cases t with
    | true =>
      simp [backoff, callBackAfterTags, bodyGet, Element.children, ElementList.head?,
        tagsL, textLeaf, Element.tag, findChild]
    | false =>
      by_cases hdm : dm = 0
      · by_cases hh : h = 0 <;> by_cases hm : m = 0 <;> by_cases hs : s = 0 <;>
          simp [backoff, callBackAfterTags, bodyGet, Element.children, ElementList.head?,
            tagsL, textLeaf, Element.tag, findChild, hdm, hh, hm, hs]
      · simp [backoff, callBackAfterTags, bodyGet, Element.children, ElementList.head?,
          tagsL, textLeaf, Element.tag, findChild, hdm]

/-- The C5 claim is false: contradictory parameters are not rejected.
`backoff(default_minutes=5, terminate=True)` builds a body (with a
`terminate` child, following precedence) instead of raising, and
`cli_config(commands, check=True, write=True)` builds a `configTest` body
with no `configPersist` instead of raising. -/
theorem claim_C5_counterexample :
    backoff 0 0 0 5 true "No Reason" =
      Element.mk "\x7burn:cisco:pnp:backoff\x7drequest" [] Option.none
        (ElementList.cons
          (Element.mk "backoff" [] Option.none
            (ElementList.cons (Element.mk "reason" [] (some "No Reason") ElementList.nil)
              (ElementList.cons (Element.mk "terminate" [] Option.none ElementList.nil)
                ElementList.nil)))
          ElementList.nil) ∧
    cli_config ["a"] "all" true "continue" true =
      Element.mk "\x7burn:cisco:pnp:cli-config\x7drequest" [] Option.none
        (ElementList.cons
          (Element.mk "configTest" [("details", AttrVal.str "all")] Option.none
            (ElementList.cons
              (Element.mk "config-data" [] Option.none
                (ElementList.cons
                  (Element.mk "cli-config-data" [] Option.none
                    (ElementList.cons (Element.mk "cmd" [] (some "a") ElementList.nil)
                      ElementList.nil))
                  ElementList.nil))
              ElementList.nil))
          ElementList.nil) :=
  ⟨rfl, rfl⟩

/-- Claim C5, amended: the codecs perform no argument validation.  For every
combination of arguments — contradictory or not — `backoff` builds a body
(resolving multiple modes by precedence) and `cli_config` builds a body,
silently dropping the `configPersist` marker when `write` is requested
together with `check`. -/
theorem claim_C5_amended_no_validation (h m s dm : Nat) (t : Bool) (r : String)
    (cmds : List String) (details : String) (check : Bool) (on_fail : String)
    (write : Bool) :
    tagsL (backoff h m s dm t r).children = ["backoff"] ∧
    tagsL (cli_config cmds details check on_fail write).children =
      (if check then "configTest" else "configApply") ::
        (if write && !check then ["configPersist"] else []) := by
  constructor
  · rfl
  · cases check <;> cases write <;> simp [cli_config, tagsL, Element.tag, Element.children]

/-- The C7 claim describes the intended contract; the code has a slip: the
`username`/`password` getters evaluate `self.root.get(...)` but lack a
`return` statement, so they yield `None` even though the setters did store
the attribute on the root element. -/
theorem claim_C7_username_password_getters (root : Element) (v : String) :
    usernameGet (usernameSet root v) = Option.none ∧
    passwordGet (passwordSet root v) = Option.none ∧
    getAttrE (usernameSet root v) "username" = AttrVal.str v ∧
    getAttrE (passwordSet root v) "password" = AttrVal.str v ∧
    usernameGet root = Option.none ∧ passwordGet root = Option.none := by
  refine ⟨rfl, rfl, ?_, ?_, rfl, rfl⟩ <;>
    simp [getAttrE, usernameSet, passwordSet, setAttrE, Element.attrs, getAttr_setAttr]

/-- The C9 claim describes the intended wire format; the code has a slip:
with `check=False` each plain string command does produce a `cmd` leaf with
that text, a default `(expect, reply)` tuple does produce a `dialog` with
`repeat="1"` and `match="exact"`, and `maxWait` is the string `PT10S`; but
the `caseSensitive` attribute holds the raw Python boolean `True` (not the
string `"True"`), and `maxResponseSize` holds a raw integer, so the built
body cannot be serialized (`tostring` raises `TypeError`). -/
theorem claim_C9_cli_exec_dialog :
    cli_exec [ExecCmd.cmd "show clock", ExecCmd.dialog "confirm" "yes"] "all" 10 0 false =
      Element.mk "\x7burn:cisco:pnp:cli-exec\x7drequest" [] Option.none
        (ElementList.cons
          (Element.mk "execCLI"
            [("maxWait", AttrVal.str "PT10S"), ("maxResponseSize", AttrVal.intVal 0)]
            Option.none
            (ElementList.cons (Element.mk "cmd" [] (some "show clock") ElementList.nil)
              (ElementList.cons
                (Element.mk "dialog" [("repeat", AttrVal.str "1")] Option.none
                  (ElementList.cons
                    (Element.mk "expect"
                      [("match", AttrVal.str "exact"),
                       ("caseSensitive", AttrVal.boolean true)]
                      (some "confirm") ElementList.nil)
                    (ElementList.cons (Element.mk "reply" [] (some "yes") ElementList.nil)
                      ElementList.nil)))
                ElementList.nil)))
          ElementList.nil) ∧
    getAttrE
      (Element.mk "expect"
        [("match", AttrVal.str "exact"), ("caseSensitive", AttrVal.boolean true)]
        (some "confirm") ElementList.nil) "caseSensitive" = AttrVal.boolean true ∧
    AttrVal.boolean true ≠ AttrVal.str "True" ∧
    to_string
      (cli_exec [ExecCmd.cmd "show clock", ExecCmd.dialog "confirm" "yes"] "all" 10 0 false)
      = Option.none := by
  exact ⟨rfl, rfl, by decide, rfl⟩

/-- Claim C6: a WORK-REQUEST (or WORK-RESPONSE) exchange dispatched to the
default, never-overridden handler fails with `NotImplementedError`
propagating out of the endpoint function; the endpoint never returns a 200
response, empty or otherwise. -/
theorem claim_C6_unimplemented_handler (raw : String) :
    (∀ out : String × Nat, workRequestEndpoint raw ≠ Except.ok out) ∧
    (∀ out : String × Nat, workResponseEndpoint raw ≠ Except.ok out) ∧
    (∀ e : Element, from_string raw = some e →
      workRequestEndpoint raw = Except.error PyError.notImplementedError ∧
      workResponseEndpoint raw = Except.error PyError.notImplementedError) := by
  cases hp : from_string raw with
  | none =>
    refine ⟨?_, ?_, ?_⟩ <;>
      simp [workRequestEndpoint, workResponseEndpoint, replyEndpoint, hp,
        Bind.bind, Except.bind]
  | some e =>
    refine ⟨?_, ?_, ?_⟩ <;>
      simp [workRequestEndpoint, workResponseEndpoint, replyEndpoint, hp,
        handle_work_request, handle_work_response, Bind.bind, Except.bind]

/-- Witness for C6 at a concrete well-formed work request. -/
theorem claim_C6_unimplemented_handler_witness :
    workRequestEndpoint "<pnp udi=\"u\"><req correlator=\"c\" /></pnp>" =
      Except.error PyError.notImplementedError ∧
    workResponseEndpoint "<pnp udi=\"u\"><req correlator=\"c\" /></pnp>" =
      Except.error PyError.notImplementedError ∧
    workRequestEndpoint "<pnp udi=\"u\"><req correlator=\"c\" /></pnp>" ≠
      Except.ok ("", 200) := by
  have h := claim_C6_unimplemented_handler "<pnp udi=\"u\"><req correlator=\"c\" /></pnp>"
  have h2 := h.2.2
    (Element.mk "pnp" [("udi", AttrVal.str "u")] Option.none
      (ElementList.cons
        (Element.mk "req" [("correlator", AttrVal.str "c")] Option.none ElementList.nil)
        ElementList.nil))
    (by rfl)
  exact ⟨h2.1, h2.2, h.1 ("", 200)⟩

/-- The C3 claim is false: an envelope with more than one body child is
not rejected.  `from_string` accepts a two-child document and the body
accessor silently returns the first child, raising nothing. -/
theorem claim_C3_counterexample :
    from_string "<pnp udi=\"u\"><a /><b /></pnp>" =
      some (Element.mk "pnp" [("udi", AttrVal.str "u")] Option.none
        (ElementList.cons (Element.mk "a" [] Option.none ElementList.nil)
          (ElementList.cons (Element.mk "b" [] Option.none ElementList.nil)
            ElementList.nil))) ∧
    bodyGet (Element.mk "pnp" [("udi", AttrVal.str "u")] Option.none
        (ElementList.cons (Element.mk "a" [] Option.none ElementList.nil)
          (ElementList.cons (Element.mk "b" [] Option.none ElementList.nil)
            ElementList.nil))) =
      some (Element.mk "a" [] Option.none ElementList.nil) :=
  ⟨rfl, rfl⟩

/-- Claim C3, amended: parsing fails exactly on input that is not
well-formed (the XML parser's error — there is no dedicated
MalformedMessageError type), and the subsequent body access fails
(`IndexError`) exactly when the parsed envelope has zero children; with one
or more children it returns the first child and raises nothing. -/
theorem claim_C3_amended_body_access (s : String) (e : Element)
    (h : from_string s = some e) :
    (bodyGet e = Option.none ↔ e.children = ElementList.nil) ∧
    (∀ hd tl, e.children = ElementList.cons hd tl → bodyGet e = some hd) ∧
    from_string "<pnp>" = Option.none ∧
    from_string "not xml" = Option.none := by
  refine ⟨?_, ?_, rfl, rfl⟩
  · obtain ⟨t, a, tx, ch⟩ := e
    cases ch <;> simp [bodyGet, ElementList.head?, Element.children]
  · intro hd tl hch
    obtain ⟨t, a, tx, ch⟩ := e
    simp only [Element.children] at hch
    subst hch
    rfl

/-- Witness for the amended C3 at a concrete parsed envelope. -/
theorem claim_C3_amended_body_access_witness :
    bodyGet (Element.mk "pnp" [("udi", AttrVal.str "u")] Option.none
        (ElementList.cons (Element.mk "a" [] Option.none ElementList.nil)
          ElementList.nil)) =
      some (Element.mk "a" [] Option.none ElementList.nil) :=
  (claim_C3_amended_body_access "<pnp udi=\"u\"><a /></pnp>"
    (Element.mk "pnp" [("udi", AttrVal.str "u")] Option.none
      (ElementList.cons (Element.mk "a" [] Option.none ElementList.nil)
        ElementList.nil))
    (by rfl)).2.1 _ _ rfl

/-! ## Lemmas about the greedy regex model (`udi_to_dict`) -/

theorem toList_asString (l : List Char) : l.asString.toList = l := rfl

theorem length_le_takeWhile_append (q : Char → Bool) (p u : List Char)
    (hp : ∀ c ∈ p, q c = true) : p.length ≤ ((p ++ u).takeWhile q).length := by
  induction p with
  | nil => simp
  | cons c p' ih =>
    have hqc : q c = true := hp c (List.mem_cons_self c p')
    have hrec := ih (fun x hx => hp x (List.mem_cons_of_mem _ hx))
    simp only [List.cons_append, List.takeWhile_cons_of_pos hqc, List.length_cons]
    omega

/-- Soundness of the backtracking step: a successful `tryLens` yields a
nonempty newline-free group, literally followed by `sep`, after which the
continuation matched. -/
theorem tryLens_sound {α : Type} (sep : List Char) (k : List Char → Option α)
    (s : List Char) :
    ∀ i, i ≤ (s.takeWhile (fun c => c != '\n')).length →
      ∀ g a, tryLens sep k s i = some (g, a) →
        g ≠ [] ∧ (∀ c ∈ g, c ≠ '\n') ∧ ∃ rest, s = g ++ (sep ++ rest) ∧ k rest = some a := by
  intro i
  induction i with
  | zero => intro _ g a h; simp [tryLens] at h
  | succ j ih =>
    intro hle g a h
    rw [tryLens] at h
    by_cases hC : sep.isPrefixOf (s.drop (j + 1)) = true
    · rw [if_pos hC] at h
      cases hk : k ((s.drop (j + 1)).drop sep.length) with
      | none => rw [hk] at h; exact ih (Nat.le_of_succ_le hle) g a h
      | some a' =>
        rw [hk] at h
        simp only [Option.some.injEq, Prod.mk.injEq] at h
        obtain ⟨hg, ha⟩ := h
        subst hg; subst ha
        have hwle : (s.takeWhile (fun c => c != '\n')).length ≤ s.length :=
          (List.takeWhile_prefix _).length_le
        have hlen : (s.take (j + 1)).length = j + 1 := by
          rw [List.length_take]; omega
        refine ⟨List.ne_nil_of_length_pos (by omega), ?_, ?_⟩
        · intro c hc
          obtain ⟨u, hu⟩ := List.takeWhile_prefix (l := s) (fun c => c != '\n')
          have htake : s.take (j + 1) =
              (s.takeWhile (fun c => c != '\n')).take (j + 1) := by
            conv_lhs => rw [← hu]
            rw [List.take_append_of_le_length hle]
          rw [htake] at hc
          have := List.mem_takeWhile_imp (List.take_subset _ _ hc)
          simpa using this
        · obtain ⟨rest, hrest⟩ := List.isPrefixOf_iff_prefix.mp hC
          refine ⟨rest, ?_, ?_⟩
          · conv_lhs => rw [← List.take_append_drop (j + 1) s]
            rw [← hrest]
          · rw [← hrest, List.drop_left] at hk
            exact hk
    · rw [if_neg hC] at h
      exact ih (Nat.le_of_succ_le hle) g a h

/-- Completeness of the backtracking step: if some admissible split exists
within the fuel, `tryLens` succeeds. -/
theorem tryLens_isSome {α : Type} (sep : List Char) (k : List Char → Option α)
    (s : List Char) :
    ∀ i j, 1 ≤ j → j ≤ i → sep.isPrefixOf (s.drop j) = true →
      (k ((s.drop j).drop sep.length)).isSome = true →
      (tryLens sep k s i).isSome = true := by
  intro i
  induction i with
  | zero => intro j h1 h2 _ _; omega
  | succ i' ih =>
    intro j h1 h2 hpre hk
    rw [tryLens]
    by_cases hC : sep.isPrefixOf (s.drop (i' + 1)) = true
    · rw [if_pos hC]
      cases hkk : k ((s.drop (i' + 1)).drop sep.length) with
      | none =>
        rcases Nat.lt_or_ge j (i' + 1) with hj | hj
        · exact ih j h1 (by omega) hpre hk
        · have hj' : j = i' + 1 := by omega
          subst hj'
          rw [hkk] at hk
          simp at hk
      | some a' => simp
    · rw [if_neg hC]
      rcases Nat.lt_or_ge j (i' + 1) with hj | hj
      · exact ih j h1 (by omega) hpre hk
      · have hj' : j = i' + 1 := by omega
        subst hj'
        exact absurd hpre hC

theorem finalGroup_sound (s g : List Char) (h : finalGroup s = some g) :
    g ≠ [] ∧ (∀ c ∈ g, c ≠ '\n') ∧ ∃ r, s = g ++ r := by
  unfold finalGroup at h
  by_cases he : (s.takeWhile (fun c => c != '\n')).isEmpty = true
  · rw [if_pos he] at h; simp at h
  · rw [if_neg he] at h
    simp only [Option.some.injEq] at h
    subst h
    refine ⟨?_, ?_, s.dropWhile (fun c => c != '\n'), (List.takeWhile_append_dropWhile _ _).symm⟩
    · intro hnil; rw [hnil] at he; simp at he
    · intro c hc
      have := List.mem_takeWhile_imp hc
      simpa using this

theorem finalGroup_isSome (n r : List Char) (hn : n ≠ [])
    (hnl : ∀ c ∈ n, c ≠ '\n') : (finalGroup (n ++ r)).isSome = true := by
  unfold finalGroup
  have hlen : n.length ≤ ((n ++ r).takeWhile (fun c => c != '\n')).length :=
    length_le_takeWhile_append _ n r (fun c hc => by simpa using hnl c hc)
  have hpos : 0 < n.length := List.length_pos.mpr hn
  have hne : ((n ++ r).takeWhile (fun c => c != '\n')).isEmpty = false := by
    cases hcase : ((n ++ r).takeWhile (fun c => c != '\n')) with
    | nil =>
      rw [hcase] at hlen
      simp only [List.length_nil, Nat.le_zero] at hlen
      omega
    | cons x xs => rfl
  simp [hne]

/-- Claim C8: the device-info UDI decoder succeeds exactly on the strings
matched by the pattern `PID:(.+),VID:(.+),SN:(.+)` (greedy, `.` not
matching a newline, anchored at the start only), returning the triple the
pattern extracts; on every other string it fails with an error surfaced to
the caller (an `AttributeError` from `None.groupdict()` — the error the
spec names MalformedUdiError), never a silently defaulted result. -/
theorem claim_C8_udi_decoder (u : String) :
    ((udi_to_dict u).isSome = true ↔
      ∃ p v n r : List Char, p ≠ [] ∧ v ≠ [] ∧ n ≠ [] ∧
        (∀ c ∈ p, c ≠ '\n') ∧ (∀ c ∈ v, c ≠ '\n') ∧ (∀ c ∈ n, c ≠ '\n') ∧
        u.toList =
          "PID:".toList ++ (p ++ (",VID:".toList ++ (v ++ (",SN:".toList ++ (n ++ r)))))) ∧
    (∀ p v n, udi_to_dict u = some (p, v, n) →
      p.toList ≠ [] ∧ v.toList ≠ [] ∧ n.toList ≠ [] ∧
      ∃ r, u.toList =
        "PID:".toList ++ (p.toList ++ (",VID:".toList ++
          (v.toList ++ (",SN:".toList ++ (n.toList ++ r)))))) := by
  have h4 : ("PID:".toList).length = 4 := rfl
  constructor
  · constructor
    · -- soundness of isSome
      intro hs
      obtain ⟨⟨p, v, n⟩, hx⟩ := Option.isSome_iff_exists.mp hs
      -- reuse the soundness argument below by unfolding at hx
      unfold udi_to_dict at hx
      by_cases hpre : ("PID:".toList).isPrefixOf u.toList = true
      · rw [if_pos hpre] at hx
        cases hg : greedyGroup (",VID:".toList)
            (greedyGroup (",SN:".toList) finalGroup) (u.toList.drop 4) with
        | none => rw [hg] at hx; simp at hx
        | some pr =>
          obtain ⟨pl, vl, nl⟩ := pr
          have houter := tryLens_sound (",VID:".toList)
            (greedyGroup (",SN:".toList) finalGroup) (u.toList.drop 4)
            ((u.toList.drop 4).takeWhile (fun c => c != '\n')).length (Nat.le_refl _)
            pl (vl, nl) hg
          obtain ⟨hpne, hpnl, rest1, hsplit1, hk1⟩ := houter
          have hinner := tryLens_sound (",SN:".toList) finalGroup rest1
            (rest1.takeWhile (fun c => c != '\n')).length (Nat.le_refl _)
            vl nl hk1
          obtain ⟨hvne, hvnl, rest2, hsplit2, hk2⟩ := hinner
          obtain ⟨hnne, hnnl, r, hsplit3⟩ := finalGroup_sound rest2 nl hk2
          obtain ⟨t, ht⟩ := List.isPrefixOf_iff_prefix.mp hpre
          have hdrop : u.toList.drop 4 = t := by
            rw [← ht, ← h4, List.drop_left]
          refine ⟨pl, vl, nl, r, hpne, hvne, hnne, hpnl, hvnl, hnnl, ?_⟩
          rw [← ht, ← hdrop, hsplit1, hsplit2, hsplit3]
      · rw [if_neg hpre] at hx; simp at hx
    · -- completeness
      rintro ⟨p, v, n, r, hpne, hvne, hnne, hpnl, hvnl, hnnl, hu⟩
      unfold udi_to_dict
      have hpre : ("PID:".toList).isPrefixOf u.toList = true := by
        rw [hu]
        exact List.isPrefixOf_iff_prefix.mpr ⟨_, rfl⟩
      rw [if_pos hpre]
      have hdrop : u.toList.drop 4 =
          p ++ (",VID:".toList ++ (v ++ (",SN:".toList ++ (n ++ r)))) := by
        rw [hu, ← h4, List.drop_left]
      have hfin : (finalGroup ((",SN:".toList ++ (n ++ r)).drop
          (",SN:".toList).length)).isSome = true := by
        rw [List.drop_left]
        exact finalGroup_isSome n r hnne hnnl
      have hinner : ((greedyGroup (",SN:".toList) finalGroup)
          (v ++ (",SN:".toList ++ (n ++ r)))).isSome = true := by
        unfold greedyGroup
        refine tryLens_isSome _ _ _ _ v.length (List.length_pos.mpr hvne) ?_ ?_ ?_
        · exact length_le_takeWhile_append _ v _ (fun c hc => by simpa using hvnl c hc)
        · rw [List.drop_left]
          exact List.isPrefixOf_iff_prefix.mpr ⟨_, rfl⟩
        · rw [List.drop_left]
          exact hfin
      have houter : (greedyGroup (",VID:".toList)
          (greedyGroup (",SN:".toList) finalGroup) (u.toList.drop 4)).isSome = true := by
        rw [hdrop]
        unfold greedyGroup
        refine tryLens_isSome _ _ _ _ p.length (List.length_pos.mpr hpne) ?_ ?_ ?_
        · exact length_le_takeWhile_append _ p _ (fun c hc => by simpa using hpnl c hc)
        · rw [List.drop_left]
          exact List.isPrefixOf_iff_prefix.mpr ⟨_, rfl⟩
        · rw [List.drop_left]
          exact hinner
      obtain ⟨⟨pl, vl, nl⟩, hx⟩ := Option.isSome_iff_exists.mp houter
      rw [hx]
      rfl
  · -- soundness with the extracted triple
    intro p v n hx
    unfold udi_to_dict at hx
    by_cases hpre : ("PID:".toList).isPrefixOf u.toList = true
    · rw [if_pos hpre] at hx
      cases hg : greedyGroup (",VID:".toList)
          (greedyGroup (",SN:".toList) finalGroup) (u.toList.drop 4) with
      | none => rw [hg] at hx; simp at hx
      | some pr =>
        obtain ⟨pl, vl, nl⟩ := pr
        rw [hg] at hx
        simp only [Option.some.injEq, Prod.mk.injEq] at hx
        obtain ⟨hp, hv, hn⟩ := hx
        subst hp; subst hv; subst hn
        have houter := tryLens_sound (",VID:".toList)
          (greedyGroup (",SN:".toList) finalGroup) (u.toList.drop 4)
          ((u.toList.drop 4).takeWhile (fun c => c != '\n')).length (Nat.le_refl _)
          pl (vl, nl) hg
        obtain ⟨hpne, _, rest1, hsplit1, hk1⟩ := houter
        have hinner := tryLens_sound (",SN:".toList) finalGroup rest1
          (rest1.takeWhile (fun c => c != '\n')).length (Nat.le_refl _)
          vl nl hk1
        obtain ⟨hvne, _, rest2, hsplit2, hk2⟩ := hinner
        obtain ⟨hnne, _, r, hsplit3⟩ := finalGroup_sound rest2 nl hk2
        obtain ⟨t, ht⟩ := List.isPrefixOf_iff_prefix.mp hpre
        have hdrop : u.toList.drop 4 = t := by
          rw [← ht, ← h4, List.drop_left]
        rw [toList_asString, toList_asString, toList_asString]
        refine ⟨hpne, hvne, hnne, r, ?_⟩
        rw [← ht, ← hdrop, hsplit1, hsplit2, hsplit3]
    · rw [if_neg hpre] at hx; simp at hx

/-- Witness for C8: the decoder applied to a matching UDI. -/
theorem claim_C8_udi_decoder_witness :
    (udi_to_dict "PID:CISCO3945,VID:V02,SN:FTX1503AH3V").isSome = true ∧
    udi_to_dict "bogus" = Option.none :=
  ⟨(claim_C8_udi_decoder "PID:CISCO3945,VID:V02,SN:FTX1503AH3V").1.mpr
    ⟨"CISCO3945".toList, "V02".toList, "FTX1503AH3V".toList, [],
      by decide, by decide, by decide, by decide, by decide, by decide, by decide⟩,
   by rfl⟩

/-! ## Round-trip lemmas: token level -/

theorem asString_toList (s : String) : s.toList.asString = s := rfl

theorem takeWhile_split (q : Char → Bool) (xs ys : List Char)
    (hx : ∀ x ∈ xs, q x = true) (hy : ∀ y, ys.head? = some y → q y = false) :
    (xs ++ ys).takeWhile q = xs ∧ (xs ++ ys).dropWhile q = ys := by
  induction xs with
  | nil =>
    cases ys with
    | nil => simp
    | cons y ys' =>
      have hqy := hy y rfl
      simp [List.takeWhile, List.dropWhile, hqy]
  | cons x xs' ih =>
    have hqx : q x = true := hx x (List.mem_cons_self x xs')
    have hrec := ih (fun z hz => hx z (List.mem_cons_of_mem _ hz))
    simp only [List.cons_append, List.takeWhile_cons_of_pos hqx,
      List.dropWhile_cons_of_pos hqx]
    exact ⟨by rw [hrec.1], hrec.2⟩

theorem parseName_round (n : String) (hn : validName n = true) (ys : List Char)
    (hy : ∀ y, ys.head? = some y → isNameChar y = false) :
    parseName (n.toList ++ ys) = some (n, ys) := by
  have hn' := hn
  unfold validName at hn'
  rw [Bool.and_eq_true] at hn'
  obtain ⟨hne, hall⟩ := hn'
  have hallm : ∀ x ∈ n.toList, isNameChar x = true := by
    intro x hx
    exact List.all_eq_true.mp hall x hx
  obtain ⟨h1, h2⟩ := takeWhile_split isNameChar n.toList ys hallm hy
  unfold parseName
  rw [h1, h2]
  have hne' : n.toList.isEmpty = false := by
    cases hc : n.toList with
    | nil => rw [hc] at hne; simp at hne
    | cons c cs => rfl
  simp only [hne', Bool.false_eq_true, if_false]
  have hnil : n.toList ≠ [] := by
    intro hh; rw [hh] at hne'; simp at hne'
  exact congrArg some (congrArg (fun z => (z, ys)) (asString_toList n))

/-- The serialized attribute list is empty or starts with a space. -/
theorem serAttrs_head (as : List (String × AttrVal)) (av : List Char)
    (h : serAttrs as = some av) : av = [] ∨ ∃ av', av = ' ' :: av' := by
  cases as with
  | nil => left; simpa [serAttrs] using h.symm
  | cons hd tl =>
    obtain ⟨k, v⟩ := hd
    cases v with
    | str s =>
      right
      cases htl : serAttrs tl with
      | none => rw [serAttrs, htl] at h; exact Option.noConfusion h
      | some r =>
        rw [serAttrs, htl] at h
        simp only [Option.pure_def, Option.bind_eq_bind, Option.some_bind,
          Option.some.injEq] at h
        exact ⟨_, h.symm⟩
    | boolean b => rw [serAttrs] at h; simp at h
    | intVal n => rw [serAttrs] at h; simp at h
    | null => rw [serAttrs] at h; simp at h

theorem length_le_serAttrs (as : List (String × AttrVal)) :
    ∀ av, serAttrs as = some av → as.length ≤ av.length := by
  induction as with
  | nil => intro av h; simp [serAttrs] at h; simp [← h]
  | cons hd tl ih =>
    intro av h
    obtain ⟨k, v⟩ := hd
    cases v with
    | str s =>
      cases htl : serAttrs tl with
      | none => rw [serAttrs, htl] at h; exact Option.noConfusion h
      | some r =>
        rw [serAttrs, htl] at h
        simp only [Option.pure_def, Option.bind_eq_bind, Option.some_bind,
          Option.some.injEq] at h
        have := ih r htl
        subst h
        simp only [List.length_cons, List.length_append]
        omega
    | boolean b => rw [serAttrs] at h; simp at h
    | intVal n => rw [serAttrs] at h; simp at h
    | null => rw [serAttrs] at h; simp at h

theorem validName_head (k : String) (h : validName k = true) :
    ∃ c rest, k.toList = c :: rest ∧ isNameChar c = true := by
  unfold validName at h
  rw [Bool.and_eq_true] at h
  obtain ⟨h1, h2⟩ := h
  cases hc : k.toList with
  | nil => rw [hc] at h1; simp at h1
  | cons c rest =>
    refine ⟨c, rest, rfl, ?_⟩
    have := List.all_eq_true.mp h2 c (by rw [hc]; exact List.mem_cons_self c rest)
    exact this

theorem validAttrs_cons (k : String) (v : AttrVal) (tl : List (String × AttrVal))
    (h : validAttrs ((k, v) :: tl) = true) :
    validName k = true ∧ validAttrV v = true ∧ validAttrs tl = true := by
  unfold validAttrs at h ⊢
  rw [List.all_cons, Bool.and_eq_true, Bool.and_eq_true] at h
  exact ⟨h.1.1, h.1.2, h.2⟩

/-- Round trip of the attribute parser over serialized attributes: with the
closing delimiter appended (`>` for an open tag, ` />` for a self-closing
one), `parseAttrs` recovers exactly the attribute list. -/
theorem parseAttrs_round (as : List (String × AttrVal)) :
    validAttrs as = true → ∀ cs, serAttrs as = some cs →
    ∀ f, as.length < f → ∀ (b : Bool) (r : List Char),
      parseAttrs f (cs ++ (if b then ' ' :: '/' :: '>' :: r else '>' :: r)) =
        some (as, b, r) := by
  induction as with
  | nil =>
    intro _ cs hser f hf b r
    have hcs : cs = [] := by simpa [serAttrs] using hser.symm
    subst hcs
    cases f with
    | zero => omega
    | succ f' =>
      cases b with
      | false =>
        rw [parseAttrs]
        simp [List.take_succ_cons]
      | true =>
        rw [parseAttrs]
        rw [if_neg (by simp [List.take_succ_cons]),
          if_neg (by simp [List.take_succ_cons]),
          if_pos (by simp [List.take_succ_cons])]
        rfl
  | cons hd tl ih =>
    intro hva cs hser f hf b r
    obtain ⟨k, v⟩ := hd
    obtain ⟨hk, hv, htl⟩ := validAttrs_cons k v tl hva
    cases v with
    | str s =>
      cases hst : serAttrs tl with
      | none => rw [serAttrs, hst] at hser; exact Option.noConfusion hser
      | some cst =>
        rw [serAttrs, hst] at hser
        simp only [Option.pure_def, Option.bind_eq_bind, Option.some_bind,
          Option.some.injEq] at hser
        subst hser
        cases f with
        | zero => omega
        | succ f' =>
          obtain ⟨k0, k', hk0, hk0c⟩ := validName_head k hk
          have hkne : (k0 = '/') = False := by
            simp only [eq_iff_iff, iff_false]
            intro hcontra
            rw [hcontra] at hk0c
            simp [isNameChar] at hk0c
          rw [parseAttrs]
          simp only [List.cons_append, List.append_assoc]
          rw [if_neg (by simp [List.take_succ_cons]),
            if_neg (by simp [List.take_succ_cons]),
            if_neg (by rw [hk0]; simp [List.cons_append, List.take_succ_cons, hkne]),
            if_pos (by simp [List.take_succ_cons])]
          simp only [List.drop_succ_cons, List.drop_zero]
          rw [parseName_round k hk ('=' :: '"' ::
            (s.toList ++ ('"' :: (cst ++
              (if b then ' ' :: '/' :: '>' :: r else '>' :: r)))))
            (fun y hy => by
              simp only [List.head?_cons, Option.some.injEq] at hy
              rw [← hy]
              decide)]
          simp only [Option.pure_def, Option.bind_eq_bind, Option.some_bind]
          rw [if_pos (by simp [List.take_succ_cons])]
          -- the value
          have hvchars : ∀ c ∈ s.toList, (c != '"') = true := by
            intro c hc
            have hall : s.toList.all
                (fun c => c != '"' && c != '<' && c != '&') = true := hv
            have := List.all_eq_true.mp hall c hc
            rw [Bool.and_eq_true, Bool.and_eq_true] at this
            exact this.1.1
          have hsplit := takeWhile_split (fun c => c != '"') s.toList
            ('"' :: (cst ++ (if b then ' ' :: '/' :: '>' :: r else '>' :: r)))
            hvchars (fun y hy => by
              simp only [List.head?_cons, Option.some.injEq] at hy
              rw [← hy]
              decide)
          simp only [List.drop_succ_cons, List.drop_zero]
          rw [hsplit.1, hsplit.2]
          rw [if_pos (by simp [List.take_succ_cons])]
          have hrec := ih htl cst hst f' (by simp at hf ⊢; omega) b r
          simp only [List.drop_succ_cons, List.drop_zero]
          rw [hrec]
          have hback : s.data.asString = s := rfl
          simp [asString_toList, hback]
    | boolean bb => rw [serAttrs] at hser; exact Option.noConfusion hser
    | intVal nn => rw [serAttrs] at hser; exact Option.noConfusion hser
    | null => rw [serAttrs] at hser; exact Option.noConfusion hser

/-! ## Round-trip lemmas: serializer shapes and totality on valid input -/

theorem validE_parts (t : String) (a : List (String × AttrVal)) (tx : Option String)
    (ch : ElementList) (h : validE (Element.mk t a tx ch) = true) :
    validName t = true ∧ validAttrs a = true ∧ validText tx = true ∧
      validL ch = true := by
  rw [validE] at h
  rw [Bool.and_eq_true, Bool.and_eq_true, Bool.and_eq_true] at h
  exact ⟨h.1.1.1, h.1.1.2, h.1.2, h.2⟩

theorem validL_parts (hh : Element) (tt : ElementList)
    (h : validL (ElementList.cons hh tt) = true) :
    validE hh = true ∧ validL tt = true := by
  rw [validL] at h
  rw [Bool.and_eq_true] at h
  exact h

theorem serAttrs_isSome (as : List (String × AttrVal)) (h : validAttrs as = true) :
    (serAttrs as).isSome = true := by
  induction as with
  | nil => rfl
  | cons hd tl ih =>
    obtain ⟨k, v⟩ := hd
    obtain ⟨hk, hv, htl⟩ := validAttrs_cons k v tl h
    cases v with
    | str s =>
      obtain ⟨cst, hcst⟩ := Option.isSome_iff_exists.mp (ih htl)
      rw [serAttrs, hcst]
      rfl
    | boolean bb => rw [validAttrV] at hv; exact Bool.noConfusion hv
    | intVal nn => rw [validAttrV] at hv; exact Bool.noConfusion hv
    | null => rw [validAttrV] at hv; exact Bool.noConfusion hv

/-- Serialized elements always start with `<`. -/
theorem serE_cons_head (e : Element) (cs : List Char) (h : serE e = some cs) :
    ∃ cs', cs = '<' :: cs' := by
  obtain ⟨t, a, tx, ch⟩ := e
  rw [serE] at h
  cases ha : serAttrs a with
  | none => rw [ha] at h; exact Option.noConfusion h
  | some av =>
    rw [ha] at h
    simp only [Option.pure_def, Option.bind_eq_bind, Option.some_bind] at h
    by_cases hc : ((textChars tx).isEmpty && isNilL ch) = true
    · rw [if_pos hc] at h
      exact ⟨_, (Option.some.injEq .. ▸ h).symm⟩
    · rw [if_neg hc] at h
      cases hl : serL ch with
      | none => rw [hl] at h; exact Option.noConfusion h
      | some inner =>
        rw [hl] at h
        simp only [Option.some_bind, Option.some.injEq] at h
        exact ⟨_, h.symm⟩

/-- Serialized valid elements start with `<` followed by a name character. -/
theorem serE_shape (e : Element) (cs : List Char) (hv : validE e = true)
    (h : serE e = some cs) :
    ∃ c cs', cs = '<' :: c :: cs' ∧ isNameChar c = true := by
  obtain ⟨t, a, tx, ch⟩ := e
  obtain ⟨hn, _, _, _⟩ := validE_parts t a tx ch hv
  obtain ⟨c, rest, hrest, hc⟩ := validName_head t hn
  rw [serE] at h
  cases ha : serAttrs a with
  | none => rw [ha] at h; exact Option.noConfusion h
  | some av =>
    rw [ha] at h
    simp only [Option.pure_def, Option.bind_eq_bind, Option.some_bind] at h
    by_cases hcnd : ((textChars tx).isEmpty && isNilL ch) = true
    · rw [if_pos hcnd] at h
      simp only [Option.some.injEq] at h
      refine ⟨c, rest ++ (av ++ [' ', '/', '>']), ?_, hc⟩
      rw [← h, hrest]
      simp
    · rw [if_neg hcnd] at h
      cases hl : serL ch with
      | none => rw [hl] at h; exact Option.noConfusion h
      | some inner =>
        rw [hl] at h
        simp only [Option.some_bind, Option.some.injEq] at h
        refine ⟨c, rest ++ (av ++ '>' ::
          (textChars tx ++ inner ++ '<' :: '/' :: (t.toList ++ ['>']))), ?_, hc⟩
        rw [← h, hrest]
        simp

/-- A serialized valid element list is empty or starts with `<` followed by
a name character. -/
theorem serL_shape (ch : ElementList) (cs : List Char) (hv : validL ch = true)
    (h : serL ch = some cs) :
    cs = [] ∨ ∃ c cs', cs = '<' :: c :: cs' ∧ isNameChar c = true := by
  cases ch with
  | nil =>
    left
    rw [serL] at h
    exact (Option.some.injEq .. ▸ h).symm
  | cons hh tt =>
    right
    obtain ⟨hvh, hvt⟩ := validL_parts hh tt hv
    rw [serL] at h
    cases hh' : serE hh with
    | none => rw [hh'] at h; exact Option.noConfusion h
    | some csh =>
      rw [hh'] at h
      cases ht' : serL tt with
      | none => rw [ht'] at h; exact Option.noConfusion h
      | some cst =>
        rw [ht'] at h
        simp only [Option.pure_def, Option.bind_eq_bind, Option.some_bind,
          Option.some.injEq] at h
        obtain ⟨c, cs', hcs, hc⟩ := serE_shape hh csh hvh hh'
        refine ⟨c, cs' ++ cst, ?_, hc⟩
        rw [← h, hcs]
        simp

/-- On valid input the serializer succeeds (joint statement for elements
and element lists, by strong induction on the `need` measure). -/
theorem ser_isSome (n : Nat) :
    (∀ e, validE e = true → needE e ≤ n → (serE e).isSome = true) ∧
    (∀ ch, validL ch = true → needL ch ≤ n → (serL ch).isSome = true) := by
  induction n using Nat.strong_induction_on with
  | _ n ih =>
    constructor
    · intro e hv hn
      obtain ⟨t, a, tx, ch⟩ := e
      obtain ⟨hnm, ha, htx, hch⟩ := validE_parts t a tx ch hv
      rw [needE] at hn
      have hlt : needL ch < n := by omega
      obtain ⟨av, hav⟩ := Option.isSome_iff_exists.mp (serAttrs_isSome a ha)
      obtain ⟨inner, hinner⟩ := Option.isSome_iff_exists.mp
        ((ih (needL ch) hlt).2 ch hch (Nat.le_refl _))
      rw [serE, hav]
      simp only [Option.pure_def, Option.bind_eq_bind, Option.some_bind]
      by_cases hc : ((textChars tx).isEmpty && isNilL ch) = true
      · rw [if_pos hc]; rfl
      · rw [if_neg hc, hinner]; rfl
    · intro ch hv hn
      cases ch with
      | nil => rfl
      | cons hh tt =>
        obtain ⟨hvh, hvt⟩ := validL_parts hh tt hv
        rw [needL] at hn
        have hlt1 : needE hh < n := by
          have := Nat.le_max_left (needE hh) (needL tt); omega
        have hlt2 : needL tt < n := by
          have := Nat.le_max_right (needE hh) (needL tt); omega
        obtain ⟨csh, hcsh⟩ := Option.isSome_iff_exists.mp
          ((ih (needE hh) hlt1).1 hh hvh (Nat.le_refl _))
        obtain ⟨cst, hcst⟩ := Option.isSome_iff_exists.mp
          ((ih (needL tt) hlt2).2 tt hvt (Nat.le_refl _))
        rw [serL, hcsh, hcst]
        rfl

/-- The fuel measure of an element is bounded by the length of its
serialization (joint statement, strong induction on the measure). -/
theorem need_le_ser (n : Nat) :
    (∀ e cs, needE e ≤ n → serE e = some cs → needE e ≤ cs.length) ∧
    (∀ ch cs, needL ch ≤ n → serL ch = some cs → needL ch ≤ cs.length + 1) := by
  induction n using Nat.strong_induction_on with
  | _ n ih =>
    constructor
    · intro e cs hn hser
      obtain ⟨t, a, tx, ch⟩ := e
      rw [needE] at hn ⊢
      rw [serE] at hser
      cases ha : serAttrs a with
      | none => rw [ha] at hser; exact Option.noConfusion hser
      | some av =>
        rw [ha] at hser
        simp only [Option.pure_def, Option.bind_eq_bind, Option.some_bind] at hser
        by_cases hc : ((textChars tx).isEmpty && isNilL ch) = true
        · rw [if_pos hc] at hser
          simp only [Option.some.injEq] at hser
          have hnil : ch = ElementList.nil := by
            rw [Bool.and_eq_true] at hc
            cases ch with
            | nil => rfl
            | cons hh tt => exact Bool.noConfusion hc.2
          subst hnil
          rw [needL]
          rw [← hser]
          simp only [List.length_cons, List.length_append]
          omega
        · rw [if_neg hc] at hser
          cases hl : serL ch with
          | none => rw [hl] at hser; exact Option.noConfusion hser
          | some inner =>
            rw [hl] at hser
            simp only [Option.some_bind, Option.some.injEq] at hser
            have hlt : needL ch < n := by omega
            have hb := (ih (needL ch) hlt).2 ch inner (Nat.le_refl _) hl
            rw [← hser]
            simp only [List.length_cons, List.length_append]
            omega
    · intro ch cs hn hser
      cases ch with
      | nil => rw [needL]; omega
      | cons hh tt =>
        rw [needL] at hn ⊢
        rw [serL] at hser
        cases hh' : serE hh with
        | none => rw [hh'] at hser; exact Option.noConfusion hser
        | some csh =>
          rw [hh'] at hser
          cases ht' : serL tt with
          | none => rw [ht'] at hser; exact Option.noConfusion hser
          | some cst =>
            rw [ht'] at hser
            simp only [Option.pure_def, Option.bind_eq_bind, Option.some_bind,
              Option.some.injEq] at hser
            have hlt1 : needE hh < n := by
              have := Nat.le_max_left (needE hh) (needL tt); omega
            have hlt2 : needL tt < n := by
              have := Nat.le_max_right (needE hh) (needL tt); omega
            have hb1 := (ih (needE hh) hlt1).1 hh csh (Nat.le_refl _) hh'
            have hb2 := (ih (needL tt) hlt2).2 tt cst (Nat.le_refl _) ht'
            obtain ⟨csh', hcsh'⟩ := serE_cons_head hh csh hh'
            have hpos : 1 ≤ csh.length := by rw [hcsh']; simp
            rw [← hser]
            simp only [List.length_append]
            have hm1 : needE hh ≤ csh.length + cst.length := by omega
            have hm2 : needL tt ≤ csh.length + cst.length := by omega
            have := Nat.max_le.mpr ⟨hm1, hm2⟩
            omega

theorem needL_pos (ch : ElementList) : 1 ≤ needL ch := by
  cases ch with
  | nil => rw [needL]
  | cons hh tt => rw [needL]; omega

theorem parseAttrs_round_open (as : List (String × AttrVal))
    (hva : validAttrs as = true) (cs : List Char) (hser : serAttrs as = some cs)
    (f : Nat) (hf : as.length < f) (r : List Char) :
    parseAttrs f (cs ++ '>' :: r) = some (as, false, r) := by
  have h := parseAttrs_round as hva cs hser f hf false r
  simpa using h

theorem parseAttrs_round_selfclose (as : List (String × AttrVal))
    (hva : validAttrs as = true) (cs : List Char) (hser : serAttrs as = some cs)
    (f : Nat) (hf : as.length < f) (r : List Char) :
    parseAttrs f (cs ++ ' ' :: '/' :: '>' :: r) = some (as, true, r) := by
  have h := parseAttrs_round as hva cs hser f hf true r
  simpa using h

/-- After a serialized attribute list, the next character is never a name
character (the list is empty or starts with a space, and the appended
delimiter is not a name character). -/
theorem serAttrs_append_head (a : List (String × AttrVal)) (av : List Char)
    (ha : serAttrs a = some av) (z : Char) (zs : List Char)
    (hz : isNameChar z = false) :
    ∀ y, (av ++ (z :: zs)).head? = some y → isNameChar y = false := by
  rcases serAttrs_head a av ha with hnil | ⟨av', hav'⟩
  · subst hnil
    intro y hy
    simp only [List.nil_append, List.head?_cons, Option.some.injEq] at hy
    rw [← hy]; exact hz
  · subst hav'
    intro y hy
    simp only [List.cons_append, List.head?_cons, Option.some.injEq] at hy
    rw [← hy]; decide

/-- Round trip: with sufficient fuel, parsing a serialized valid element
(or element list, the list ending where the parent's closing tag starts)
recovers exactly the original tree and leaves the rest of the input
untouched.  Joint statement by strong induction on the fuel. -/
theorem parse_round (f : Nat) :
    (∀ e cs r, validE e = true → serE e = some cs → needE e ≤ f →
      parseE f (cs ++ r) = some (e, r)) ∧
    (∀ ch cs r, validL ch = true → serL ch = some cs → needL ch ≤ f →
      parseChildren f (cs ++ '<' :: '/' :: r) = some (ch, '<' :: '/' :: r)) := by
  induction f using Nat.strong_induction_on with
  | _ f ih =>
    constructor
    · intro e cs r hv hser hneed
      obtain ⟨t, a, tx, ch⟩ := e
      obtain ⟨hnm, hA, htx, hch⟩ := validE_parts t a tx ch hv
      rw [needE] at hneed
      have hchpos := needL_pos ch
      obtain ⟨f', rfl⟩ : ∃ f', f = f' + 1 := by
        cases f with
        | zero => omega
        | succ f'' => exact ⟨f'', rfl⟩
      rw [serE] at hser
      cases ha : serAttrs a with
      | none => rw [ha] at hser; exact Option.noConfusion hser
      | some av =>
        rw [ha] at hser
        simp only [Option.pure_def, Option.bind_eq_bind, Option.some_bind] at hser
        have havlen := length_le_serAttrs a av ha
        by_cases hc : ((textChars tx).isEmpty && isNilL ch) = true
        · -- self-closing form `<t a />`
          rw [if_pos hc] at hser
          simp only [Option.some.injEq] at hser
          rw [Bool.and_eq_true] at hc
          have hnil : ch = ElementList.nil := by
            cases ch with
            | nil => rfl
            | cons hh tt => exact Bool.noConfusion hc.2
          subst hnil
          have htxnone : tx = Option.none := by
            cases tx with
            | none => rfl
            | some ts =>
              exfalso
              rw [validText, Bool.and_eq_true] at htx
              have h1 := htx.1
              have h2 := hc.1
              rw [textChars] at h2
              rw [h2] at h1
              exact Bool.noConfusion h1
          subst htxnone
          subst hser
          rw [parseE]
          simp only [List.cons_append, List.append_assoc, List.nil_append]
          rw [if_pos (by simp [List.take_succ_cons])]
          simp only [List.drop_succ_cons, List.drop_zero]
          rw [parseName_round t hnm (av ++ (' ' :: '/' :: '>' :: r))
            (serAttrs_append_head a av ha ' ' ('/' :: '>' :: r) (by decide))]
          simp only [Option.pure_def, Option.bind_eq_bind, Option.some_bind]
          rw [parseAttrs_round_selfclose a hA av ha
            ((av ++ (' ' :: '/' :: '>' :: r)).length + 1)
            (by simp only [List.length_append]; omega) r]
          simp only [Option.some_bind]
          rw [if_pos trivial]
        · -- full form `<t a>text children</t>`
          rw [if_neg hc] at hser
          cases hl : serL ch with
          | none => rw [hl] at hser; exact Option.noConfusion hser
          | some inner =>
            rw [hl] at hser
            simp only [Option.some_bind, Option.some.injEq] at hser
            subst hser
            rw [parseE]
            simp only [List.cons_append, List.append_assoc, List.nil_append]
            rw [if_pos (by simp [List.take_succ_cons])]
            simp only [List.drop_succ_cons, List.drop_zero]
            rw [parseName_round t hnm
              (av ++ ('>' :: (textChars tx ++ (inner ++
                ('<' :: '/' :: (t.toList ++ ('>' :: r)))))))
              (serAttrs_append_head a av ha '>' _ (by decide))]
            simp only [Option.pure_def, Option.bind_eq_bind, Option.some_bind]
            rw [parseAttrs_round_open a hA av ha
              ((av ++ ('>' :: (textChars tx ++ (inner ++
                ('<' :: '/' :: (t.toList ++ ('>' :: r))))))).length + 1)
              (by simp only [List.length_append]; omega) _]
            simp only [Option.some_bind]
            rw [if_neg (show ¬(false = true) by simp)]
            -- the text chunk
            have htxchars : ∀ c ∈ textChars tx, (c != '<') = true := by
              cases tx with
              | none => intro c hc'; rw [textChars] at hc'; simp at hc'
              | some ts =>
                intro c hc'
                rw [textChars] at hc'
                rw [validText, Bool.and_eq_true] at htx
                have := List.all_eq_true.mp htx.2 c hc'
                rw [Bool.and_eq_true] at this
                exact this.1
            have hinnerhead : ∀ y,
                (inner ++ ('<' :: '/' :: (t.toList ++ ('>' :: r)))).head? = some y →
                (y != '<') = false := by
              rcases serL_shape ch inner hch hl with hinil | ⟨c, cs', hish, _⟩
              · subst hinil
                intro y hy
                simp only [List.nil_append, List.head?_cons, Option.some.injEq] at hy
                rw [← hy]; decide
              · rw [hish]
                intro y hy
                simp only [List.cons_append, List.head?_cons, Option.some.injEq] at hy
                rw [← hy]; decide
            have htws := takeWhile_split (fun c => c != '<') (textChars tx)
              (inner ++ ('<' :: '/' :: (t.toList ++ ('>' :: r)))) htxchars hinnerhead
            rw [htws.1, htws.2]
            have htext : (if (textChars tx).isEmpty then Option.none
                else some (textChars tx).asString) = tx := by
              cases tx with
              | none => rfl
              | some ts =>
                rw [textChars]
                rw [validText, Bool.and_eq_true] at htx
                have hemp : ts.toList.isEmpty = false := by
                  cases hval : ts.toList.isEmpty with
                  | false => rfl
                  | true =>
                    have h1 := htx.1
                    rw [hval] at h1
                    exact Bool.noConfusion h1
                rw [hemp]
                rfl
            rw [htext]
            have hrec := (ih f' (Nat.lt_succ_self f')).2 ch inner
              (t.toList ++ ('>' :: r)) hch hl (by omega)
            rw [hrec]
            simp only [Option.some_bind]
            rw [if_pos (by simp [List.take_succ_cons])]
            simp only [List.drop_succ_cons, List.drop_zero]
            rw [parseName_round t hnm ('>' :: r) (fun y hy => by
              simp only [List.head?_cons, Option.some.injEq] at hy
              rw [← hy]; decide)]
            simp only [Option.some_bind]
            rw [if_pos ⟨trivial, by simp [List.take_succ_cons]⟩]
            simp [List.drop_succ_cons]
    · intro ch cs r hv hser hneed
      have hpos := needL_pos ch
      obtain ⟨f', rfl⟩ : ∃ f', f = f' + 1 := by
        cases f with
        | zero => omega
        | succ f'' => exact ⟨f'', rfl⟩
      cases ch with
      | nil =>
        rw [serL] at hser
        simp only [Option.some.injEq] at hser
        subst hser
        rw [parseChildren]
        simp only [List.nil_append]
        rw [if_pos (by simp [List.take_succ_cons])]
      | cons hh tt =>
        obtain ⟨hvh, hvt⟩ := validL_parts hh tt hv
        rw [needL] at hneed
        rw [serL] at hser
        cases hh' : serE hh with
        | none => rw [hh'] at hser; exact Option.noConfusion hser
        | some csh =>
          rw [hh'] at hser
          cases ht' : serL tt with
          | none => rw [ht'] at hser; exact Option.noConfusion hser
          | some cst =>
            rw [ht'] at hser
            simp only [Option.pure_def, Option.bind_eq_bind, Option.some_bind,
              Option.some.injEq] at hser
            subst hser
            obtain ⟨c, cs', hshape, hcname⟩ := serE_shape hh csh hvh hh'
            have hcne : (c = '/') = False := by
              simp only [eq_iff_iff, iff_false]
              intro hcontra
              rw [hcontra] at hcname
              exact Bool.noConfusion hcname
            rw [parseChildren]
            simp only [List.append_assoc]
            rw [if_neg (by
              rw [hshape]
              simp [List.cons_append, List.take_succ_cons, hcne])]
            rw [if_pos (by
              rw [hshape]
              simp [List.cons_append, List.take_succ_cons])]
            have hmaxl := Nat.le_max_left (needE hh) (needL tt)
            have hmaxr := Nat.le_max_right (needE hh) (needL tt)
            have hrecE := (ih f' (Nat.lt_succ_self f')).1 hh csh
              (cst ++ '<' :: '/' :: r) hvh hh' (by omega)
            rw [hrecE]
            simp only [Option.pure_def, Option.bind_eq_bind, Option.some_bind]
            have hrecL := (ih f' (Nat.lt_succ_self f')).2 tt cst r hvt ht' (by omega)
            rw [hrecL]
            simp only [Option.some_bind]

/-- Serializing any valid element and parsing the result yields the
element back. -/
theorem from_to_string (e : Element) (hv : validE e = true) :
    (to_string e).bind from_string = some e := by
  obtain ⟨cs, hser⟩ := Option.isSome_iff_exists.mp
    ((ser_isSome (needE e)).1 e hv (Nat.le_refl _))
  rw [to_string, hser]
  simp only [Option.map_some', Option.some_bind]
  rw [from_string]
  have hneed := (need_le_ser (needE e)).1 e cs (Nat.le_refl _) hser
  have htl : (cs.asString).toList = cs := rfl
  have hlenconv : (cs.asString).length = cs.length := rfl
  rw [htl, hlenconv]
  have hrt := (parse_round (2 * cs.length + 2)).1 e cs [] hv hser (by omega)
  rw [List.append_nil] at hrt
  rw [hrt]
  rfl

/-- Claim C2: for every envelope constructed from valid session attributes
(`udi`, optional `username`/`password`, all within the modelled XML
alphabet) and a single valid body element `B`, parsing the result of
serializing the envelope (`PnpMessage.from_string` applied to
`PnpMessage.to_string`) yields an envelope equal to the original: same root
tag, same attribute list, equal body subtree. -/
theorem claim_C2_roundtrip (udi : String) (username password : Option String)
    (B : Element)
    (h1 : validAttrV (AttrVal.str udi) = true)
    (h2 : ∀ u, username = some u → validAttrV (AttrVal.str u) = true)
    (h3 : ∀ p, password = some p → validAttrV (AttrVal.str p) = true)
    (h4 : validE B = true) :
    (to_string (mkEnvelope udi username password B)).bind from_string =
      some (mkEnvelope udi username password B) := by
  apply from_to_string
  rcases username with _ | u
  · rcases password with _ | p
    · simp +decide [mkEnvelope, validE, validAttrs, validText, validL, h1, h4]
    · simp +decide [mkEnvelope, validE, validAttrs, validText, validL, h1, h4,
        h3 p rfl]
  · rcases password with _ | p
    · simp +decide [mkEnvelope, validE, validAttrs, validText, validL, h1, h4,
        h2 u rfl]
    · simp +decide [mkEnvelope, validE, validAttrs, validText, validL, h1, h4,
        h2 u rfl, h3 p rfl]

/-- Witness for C2 at a concrete envelope. -/
theorem claim_C2_roundtrip_witness :
    (to_string (mkEnvelope "PID:1,VID:2,SN:3" (some "admin") Option.none
      (Element.mk "request" [("correlator", AttrVal.str "c1")] Option.none
        ElementList.nil))).bind from_string =
      some (mkEnvelope "PID:1,VID:2,SN:3" (some "admin") Option.none
        (Element.mk "request" [("correlator", AttrVal.str "c1")] Option.none
          ElementList.nil)) :=
  claim_C2_roundtrip "PID:1,VID:2,SN:3" (some "admin") Option.none
    (Element.mk "request" [("correlator", AttrVal.str "c1")] Option.none
      ElementList.nil)
    (by decide)
    (fun u hu => by cases hu; decide)
    (fun p hp => Option.noConfusion hp)
    (by decide)

end Pnp
